import Mathlib

/-! Verification of the Atari environment wrappers and the online REM training
loop of online_rem.py, modelled as a shallow embedding in Lean. Frames are flat
lists of pixel samples, rewards are rationals, and each stateful wrapper is an
explicit state-passing function over a generic inner environment. -/

/-- A raw frame: a flat list of pixel samples. -/
abbrev Frame := List Nat

/-- Elementwise maximum of two frames, as the buffer max over axis 0 in
MaxAndSkipEnv.step computes it. -/
def maxFrame (a b : Frame) : Frame := List.zipWith max a b

/-- Model of np.sign on rational inputs: positive to 1, negative to -1,
zero to 0. -/
def npSign (r : ℚ) : ℚ := if 0 < r then 1 else if r < 0 then -1 else 0

namespace ClipRewardEnv

/-- ClipRewardEnv.reward, line 138: bin reward to its sign. -/
def reward (r : ℚ) : ℚ := npSign r

end ClipRewardEnv

/-- linear_schedule, lines 574 to 576 of the source: slope is
(end_e - start_e) / duration and the result is max (slope * t + start_e)
end_e. -/
def linear_schedule (start_e end_e duration t : ℚ) : ℚ :=
  max ((end_e - start_e) / duration * t + start_e) end_e

/-- The guard of the learning branch of the training loop, line 636 of the
source: global_step strictly greater than learning_start, and global_step
divisible by train_frequency. -/
def learning_step_taken (learning_start train_frequency global_step : Nat) : Bool :=
  decide (learning_start < global_step) && decide (global_step % train_frequency = 0)

/-- The global steps in range total_timesteps at which the training loop runs a
learning step. -/
def learning_steps (total_timesteps learning_start train_frequency : Nat) : List Nat :=
  (List.range total_timesteps).filter (learning_step_taken learning_start train_frequency)

/-- Tags for the wrappers that wrap_deepmind may install. -/
inductive AtariWrapper
  | EpisodicLife
  | FireReset
  | WarpFrame
  | ScaledFloat
  | ClipReward
  | ImageToPyTorch
  | FrameStack
deriving DecidableEq

/-- wrap_deepmind, lines 300 to 314 of the source: the ordered list of wrappers
applied, innermost first, as selected by the four flags and by whether the
action set of the environment contains FIRE. -/
def wrap_deepmind (episode_life clip_rewards frame_stack scale has_fire : Bool) :
    List AtariWrapper :=
  (if episode_life then [AtariWrapper.EpisodicLife] else []) ++
  (if has_fire then [AtariWrapper.FireReset] else []) ++
  [AtariWrapper.WarpFrame] ++
  (if scale then [AtariWrapper.ScaledFloat] else []) ++
  (if clip_rewards then [AtariWrapper.ClipReward] else []) ++
  [AtariWrapper.ImageToPyTorch] ++
  (if frame_stack then [AtariWrapper.FrameStack] else [])

/-- The pipeline built for training, lines 479 to 485 of the source: the
wrap_deepmind call passes episode_life=False, clip_rewards=True,
frame_stack=True, scale=False. -/
def training_pipeline (has_fire : Bool) : List AtariWrapper :=
  wrap_deepmind false true true false has_fire

/-- Model of torch.mean over the head axis of a (batch, action, head) tensor:
each head vector collapses to its sum divided by its length. -/
def meanHeads (q : List (List (List ℚ))) : List (List ℚ) :=
  q.map (fun acts => acts.map (fun heads => heads.sum / (heads.length : ℚ)))

/-- Dot product of two rational vectors, for the matmul with the
(num_heads, 1) transform matrix. -/
def dotQ (a b : List ℚ) : ℚ := (List.zipWith (fun x y => x * y) a b).sum

/-- Model of torch.matmul of a (batch, action, head) tensor with an
(head, 1) matrix followed by squeeze of the resulting singleton axis: each head
vector collapses to its dot product with the matrix column. -/
def matmulSqueeze (q : List (List (List ℚ))) (m : List ℚ) : List (List ℚ) :=
  q.map (fun acts => acts.map (fun heads => dotQ heads m))

/-- Result tensor of combine_q_functions: rank 2 after the STOCHASTIC matmul
and squeeze, rank 3 untouched under IDENTITY. -/
inductive QTensor
  | rank2 (v : List (List ℚ))
  | rank3 (v : List (List (List ℚ)))
deriving DecidableEq

/-- combine_q_functions, lines 549 to 562 of the source: the mean over heads is
computed first; STOCHASTIC projects the heads through the transform matrix,
IDENTITY passes them through, and any other strategy name raises ValueError. -/
def combine_q_functions (q_functions : List (List (List ℚ)))
    (transform_strategy : String) (transform_matrix : List ℚ) :
    Except String (QTensor × List (List ℚ)) :=
  let q_values := meanHeads q_functions
  if transform_strategy = "STOCHASTIC" then
    Except.ok (QTensor.rank2 (matmulSqueeze q_functions transform_matrix), q_values)
  else if transform_strategy = "IDENTITY" then
    Except.ok (QTensor.rank3 q_functions, q_values)
  else
    Except.error (transform_strategy ++ " is not a valid reordering strategy")

/-- Model of torch.argmax on a vector: the index of the first maximal entry. -/
def argmaxIdx : List ℚ → Nat
  | [] => 0
  | [_] => 0
  | x :: y :: t =>
    let j := argmaxIdx (y :: t)
    if x < (y :: t).getD j 0 then j + 1 else 0

/-- Greedy action selection for a single observation, lines 610 and 617 of the
source: the forward pass returns the pair of q_heads and q_values from
combine_q_functions under the STOCHASTIC strategy, and the chosen action is the
argmax of q_values, the mean over heads. -/
def greedy_action (obs_heads : List (List ℚ)) (transform_matrix : List ℚ) : Nat :=
  match combine_q_functions [obs_heads] "STOCHASTIC" transform_matrix with
  | Except.ok p => argmaxIdx (p.2.getD 0 [])
  | Except.error _ => 0

/-- C9: the reward clipping wrapper maps every rational reward to -1, 0 or 1,
and the sign of the output matches the sign of the input. -/
theorem clip_reward_sign (r : ℚ) :
    (ClipRewardEnv.reward r = -1 ∨ ClipRewardEnv.reward r = 0 ∨
      ClipRewardEnv.reward r = 1) ∧
    (0 < r → ClipRewardEnv.reward r = 1) ∧
    (r < 0 → ClipRewardEnv.reward r = -1) ∧
    (r = 0 → ClipRewardEnv.reward r = 0) := by
  simp only [ClipRewardEnv.reward, npSign]
  rcases lt_trichotomy r 0 with h | h | h
  · rw [if_neg (by linarith), if_pos h]
    exact ⟨Or.inl rfl, fun h2 => absurd h2 (by linarith), fun _ => rfl,
      fun h2 => absurd h2 (by linarith)⟩
  · subst h
    rw [if_neg (by linarith), if_neg (by linarith)]
    exact ⟨Or.inr (Or.inl rfl), fun h2 => absurd h2 (by linarith),
      fun h2 => absurd h2 (by linarith), fun _ => rfl⟩
  · rw [if_pos h]
    exact ⟨Or.inr (Or.inr rfl), fun _ => rfl, fun h2 => absurd h2 (by linarith),
      fun h2 => absurd h2 (by linarith)⟩

/-- Witness for C9 at the concrete reward 2. -/
theorem clip_reward_sign_witness : (0 : ℚ) < 2 ∧ ClipRewardEnv.reward 2 = 1 :=
  ⟨by norm_num, (clip_reward_sign 2).2.1 (by norm_num)⟩

/-- C6: for start_e at least end_e and positive duration, linear_schedule is
start_e at t = 0, end_e at t = duration, clamped to end_e beyond duration, and
the linear interpolation start_e + t * (end_e - start_e) / duration inside the
interval; at the concrete configuration of the claim the values are 1, 1/100
and 1/100. -/
theorem linear_schedule_spec (s e d t : ℚ) (hse : e ≤ s) (hd : 0 < d) :
    linear_schedule s e d 0 = s ∧
    linear_schedule s e d d = e ∧
    (d < t → linear_schedule s e d t = e) ∧
    (0 ≤ t → t ≤ d → linear_schedule s e d t = s + t * (e - s) / d) ∧
    linear_schedule 1 (1/100) 100 0 = 1 ∧
    linear_schedule 1 (1/100) 100 100 = 1/100 ∧
    linear_schedule 1 (1/100) 100 200 = 1/100 := by
  have hslope : (e - s) / d ≤ 0 := by
    rw [div_nonpos_iff]
    right
    exact ⟨by linarith, hd.le⟩
  have hsd : (e - s) / d * d = e - s := div_mul_cancel₀ _ hd.ne'
  refine ⟨?_, ?_, ?_, ?_, ?_, ?_, ?_⟩
  · rw [linear_schedule, mul_zero, zero_add, max_eq_left hse]
  · rw [linear_schedule, hsd]
    have : e - s + s = e := by ring
    rw [this, max_self]
  · intro ht
    have h1 : (e - s) / d * t ≤ (e - s) / d * d :=
      mul_le_mul_of_nonpos_left ht.le hslope
    rw [linear_schedule, max_eq_right (by linarith [hsd])]
  · intro h0 htd
    have h1 : (e - s) / d * d ≤ (e - s) / d * t :=
      mul_le_mul_of_nonpos_left htd hslope
    rw [linear_schedule, max_eq_left (by linarith [hsd])]
    ring
  · rw [linear_schedule]; norm_num
  · rw [linear_schedule]; norm_num
  · rw [linear_schedule]
    have : ((1 : ℚ)/100 - 1) / 100 * 200 + 1 = -(98/100) := by norm_num
    rw [this, max_eq_right (by norm_num)]

/-- Witness for C6 at the concrete schedule of the claim, sampled at t = 50. -/
theorem linear_schedule_spec_witness :
    (1/100 : ℚ) ≤ 1 ∧ (0 : ℚ) < 100 ∧ linear_schedule 1 (1/100) 100 0 = 1 :=
  ⟨by norm_num, by norm_num,
    (linear_schedule_spec 1 (1/100) 100 50 (by norm_num) (by norm_num)).1⟩

/-- C1 counterexample: with learning_start 10 and train_frequency 5, no
learning step runs at global step 10, and over 50 total timesteps only 7
learning steps run, not the 8 the claim states. -/
theorem learning_steps_counterexample :
    learning_step_taken 10 5 10 = false ∧ (learning_steps 50 10 5).length = 7 := by
  decide

/-- C1 amended: a learning step runs exactly at the global steps strictly
greater than learning_start that are multiples of train_frequency; with
total_timesteps 50, learning_start 10 and train_frequency 5 these are the 7
steps 15, 20, 25, 30, 35, 40, 45. -/
theorem learning_steps_amended :
    learning_steps 50 10 5 = [15, 20, 25, 30, 35, 40, 45] ∧
    (∀ g : Nat, learning_step_taken 10 5 g = true ↔ 10 < g ∧ g % 5 = 0) := by
  refine ⟨by decide, fun g => ?_⟩
  simp [learning_step_taken]

/-- C2: the pipeline actually constructed for training omits the episode-life
shaping stage, because the wrap_deepmind call passes episode_life=False,
whether or not the action set contains FIRE. -/
theorem training_pipeline_no_episodic_life (has_fire : Bool) :
    AtariWrapper.EpisodicLife ∉ training_pipeline has_fire := by
  cases has_fire <;> decide

/-- C5: combine_q_functions under IDENTITY returns the head values unchanged
together with the mean over heads, and under any strategy name other than
STOCHASTIC and IDENTITY it returns the invalid-configuration error and no
combined value. -/
theorem combine_q_functions_identity_and_error
    (q : List (List (List ℚ))) (m : List ℚ) :
    combine_q_functions q "IDENTITY" m = Except.ok (QTensor.rank3 q, meanHeads q) ∧
    (∀ s : String, s ≠ "STOCHASTIC" → s ≠ "IDENTITY" →
      combine_q_functions q s m =
        Except.error (s ++ " is not a valid reordering strategy")) := by
  constructor
  · rfl
  · intro s h1 h2
    simp [combine_q_functions, h1, h2]

/-- Witness for C5 at a concrete tensor and the unrecognized strategy FOO. -/
theorem combine_q_functions_witness :
    ("FOO" ≠ "STOCHASTIC") ∧ ("FOO" ≠ "IDENTITY") ∧
    combine_q_functions [[[(1 : ℚ), 3]]] "FOO" [1] =
      Except.error ("FOO" ++ " is not a valid reordering strategy") :=
  ⟨by decide, by decide,
    (combine_q_functions_identity_and_error [[[(1 : ℚ), 3]]] [1]).2 "FOO"
      (by decide) (by decide)⟩

/-- C8: the greedy action is the argmax of the mean over heads of the Q-values
for the observation, so it is identical under any two transform matrices
installed in the network. -/
theorem greedy_action_matrix_independent
    (obs_heads : List (List ℚ)) (m1 m2 : List ℚ) :
    greedy_action obs_heads m1 = greedy_action obs_heads m2 ∧
    greedy_action obs_heads m1 = argmaxIdx ((meanHeads [obs_heads]).getD 0 []) :=
  ⟨rfl, rfl⟩

/-- Output of one environment step: next state, observation id, reward and
done flag. -/
structure StepOut (σ : Type) where
  state : σ
  obs : Nat
  reward : ℚ
  done : Bool
deriving DecidableEq

/-- A deterministic gym environment over states of type σ: reset, step, and
the lives counter the emulator exposes. -/
structure GymEnv (σ : Type) where
  reset : σ → σ × Nat
  step : σ → Nat → StepOut σ
  lives : σ → Nat

/-- State of the EpisodicLifeEnv wrapper, lines 64 to 71 of the source: the
inner state plus the tracked lives count and the was_real_done flag. -/
structure EpisodicLifeState (σ : Type) where
  inner : σ
  lives : Nat
  was_real_done : Bool
deriving DecidableEq

namespace EpisodicLifeEnv

/-- Constructor state of EpisodicLifeEnv, lines 70 to 71: lives start at 0 and
was_real_done starts true. -/
def init {σ : Type} (inner : σ) : EpisodicLifeState σ := ⟨inner, 0, true⟩

/-- EpisodicLifeEnv.step, lines 73 to 85: record the true done flag, read the
lives counter, and force done when lives strictly decreased while staying
positive. -/
def step {σ : Type} (E : GymEnv σ) (s : EpisodicLifeState σ) (action : Nat) :
    StepOut (EpisodicLifeState σ) :=
  let o := E.step s.inner action
  let lv := E.lives o.state
  let dn := if lv < s.lives ∧ 0 < lv then true else o.done
  ⟨⟨o.state, lv, o.done⟩, o.obs, o.reward, dn⟩

/-- EpisodicLifeEnv.reset, lines 87 to 98: a real inner reset only when the
true episode ended, otherwise a single no-op step with action 0; then
resynchronize the lives counter. -/
def reset {σ : Type} (E : GymEnv σ) (s : EpisodicLifeState σ) :
    EpisodicLifeState σ × Nat :=
  if s.was_real_done then
    let r := E.reset s.inner
    (⟨r.1, E.lives r.1, s.was_real_done⟩, r.2)
  else
    let o := E.step s.inner 0
    (⟨o.state, E.lives o.state, s.was_real_done⟩, o.obs)

end EpisodicLifeEnv

/-- Iterate EpisodicLifeEnv.step n times with action 0, keeping the state. -/
def elStepN {σ : Type} (E : GymEnv σ) : Nat → EpisodicLifeState σ → EpisodicLifeState σ
  | 0, s => s
  | n + 1, s => elStepN E n (EpisodicLifeEnv.step E s 0).state

/-- Collect the done flags of n successive EpisodicLifeEnv.step calls with
action 0. -/
def elRunDones {σ : Type} (E : GymEnv σ) : Nat → EpisodicLifeState σ → List Bool
  | 0, _ => []
  | n + 1, s =>
    (EpisodicLifeEnv.step E s 0).done ::
      elRunDones E n (EpisodicLifeEnv.step E s 0).state

/-- The scripted life sequence of the claim. -/
def scriptLives : List Nat := [3, 3, 2, 2, 1, 0]

/-- Scripted emulator for the claim: the state counts executed ticks, tick i
yields observation 100 + i, reward 0, and done only on the final tick; the
lives counter follows scriptLives, starting at 3 after reset. -/
def scriptEnv : GymEnv Nat where
  reset := fun _ => (0, 900)
  step := fun i _ => ⟨i + 1, 100 + i, 0, decide (i = 5)⟩
  lives := fun j => if j = 0 then 3 else scriptLives.getD (j - 1) 0

/-- The wrapper state right after the initial reset over the scripted
emulator. -/
def elScriptStart : EpisodicLifeState Nat :=
  (EpisodicLifeEnv.reset scriptEnv (EpisodicLifeEnv.init 0)).1

/-- The wrapper state after the third scripted step, the first pseudo-terminal
done reported from a life loss with the true episode still running. -/
def elScriptS3 : EpisodicLifeState Nat := elStepN scriptEnv 3 elScriptStart

/-- C3: over the scripted life sequence [3,3,2,2,1,0] with inner done false
until the final tick, EpisodicLifeEnv reports done exactly at the two life
losses and at the true termination; and reset after the pseudo-terminal done
advances the inner environment by exactly one no-op step, returning the obs of
that step, rather than performing a full inner reset to state 0. -/
theorem episodic_life_script :
    elRunDones scriptEnv 6 elScriptStart = [false, false, true, false, true, true] ∧
    elScriptS3.was_real_done = false ∧
    (EpisodicLifeEnv.reset scriptEnv elScriptS3).1.inner =
      (scriptEnv.step elScriptS3.inner 0).state ∧
    (EpisodicLifeEnv.reset scriptEnv elScriptS3).2 =
      (scriptEnv.step elScriptS3.inner 0).obs ∧
    (EpisodicLifeEnv.reset scriptEnv elScriptS3).1.inner = elScriptS3.inner + 1 ∧
    (scriptEnv.reset elScriptS3.inner).1 = 0 ∧
    (EpisodicLifeEnv.reset scriptEnv elScriptS3).1.inner ≠
      (scriptEnv.reset elScriptS3.inner).1 := by
  decide

namespace FireResetEnv

/-- Inner state after the initial reset and the handling of the first fire
step of FireResetEnv.reset, lines 51 to 54: reset, step action 1, and reset
again when that step reported done. -/
def afterFire1 {σ : Type} (E : GymEnv σ) (s : σ) : σ :=
  let s0 := (E.reset s).1
  let o1 := E.step s0 1
  if o1.done then (E.reset o1.state).1 else o1.state

/-- FireResetEnv.reset, lines 50 to 58: after the first fire step, step action
2, reset the inner environment when that step reported done, and return the
observation of the action-2 step in every case. -/
def reset {σ : Type} (E : GymEnv σ) (s : σ) : σ × Nat :=
  let o2 := E.step (afterFire1 E s) 2
  ((if o2.done then (E.reset o2.state).1 else o2.state), o2.obs)

end FireResetEnv

/-- C10: FireResetEnv.reset always returns the observation of the action-2
step, and when that step reports done the resulting inner state is the state
of a fresh inner reset while the returned observation is still the terminal
observation of the fire step. -/
theorem fire_reset_obs (σ : Type) (E : GymEnv σ) (s : σ) :
    (FireResetEnv.reset E s).2 = (E.step (FireResetEnv.afterFire1 E s) 2).obs ∧
    ((E.step (FireResetEnv.afterFire1 E s) 2).done = true →
      (FireResetEnv.reset E s).1 =
        (E.reset (E.step (FireResetEnv.afterFire1 E s) 2).state).1) := by
  refine ⟨rfl, fun h => ?_⟩
  simp [FireResetEnv.reset, h]

/-- Scripted emulator for the C10 witness: stepping with action a moves the
state by 10 * a, yields observation 70 + a, and reports done exactly on
action 2. -/
def fireScriptEnv : GymEnv Nat where
  reset := fun _ => (0, 500)
  step := fun s a => ⟨s + 10 * a, 70 + a, 0, decide (a = 2)⟩
  lives := fun _ => 3

/-- Witness for C10: over the scripted emulator the action-2 step reports
done, and reset returns its observation while the inner state is the fresh
reset state. -/
theorem fire_reset_obs_witness :
    (fireScriptEnv.step (FireResetEnv.afterFire1 fireScriptEnv 7) 2).done = true ∧
    (FireResetEnv.reset fireScriptEnv 7).1 =
      (fireScriptEnv.reset
        (fireScriptEnv.step (FireResetEnv.afterFire1 fireScriptEnv 7) 2).state).1 :=
  ⟨by decide, (fire_reset_obs Nat fireScriptEnv 7).2 (by decide)⟩

/-- The last k elements of a list of frames. -/
def takeLast (k : Nat) (ys : List Frame) : List Frame := ys.drop (ys.length - k)

/-- Append on a deque with maxlen k: the result keeps the last k elements of
the extended list, as collections.deque does. -/
def dequeAppend (k : Nat) (xs : List Frame) (x : Frame) : List Frame :=
  (xs ++ [x]).drop ((xs ++ [x]).length - k)

namespace FrameStack

/-- FrameStack.reset, lines 208 to 212 of the source: append the reset
observation k times to the window. -/
def reset (k : Nat) (w : List Frame) (ob : Frame) : List Frame :=
  (List.replicate k ob).foldl (dequeAppend k) w

/-- FrameStack.step, lines 214 to 217 of the source: append the new
observation to the window. -/
def step (k : Nat) (w : List Frame) (ob : Frame) : List Frame :=
  dequeAppend k w ob

/-- Materialization of the LazyFrames observation, line 247 of the source:
np.concatenate of the window frames along axis 0. -/
def getOb (w : List Frame) : Frame := w.flatten

end FrameStack

/-- The window of a FrameStack of size k after a reset with observation ob0
followed by one step per element of obs, in order. -/
def windowAfter (k : Nat) (ob0 : Frame) (obs : List Frame) : List Frame :=
  obs.foldl (dequeAppend k) (FrameStack.reset k [] ob0)

/-- Truncating to the last k elements before appending does not change the
last k elements of the concatenation. -/
theorem takeLast_takeLast_append (k : Nat) (a b : List Frame) :
    takeLast k (takeLast k a ++ b) = takeLast k (a ++ b) := by
  unfold takeLast
  have h1 : a.drop (a.length - k) ++ b = (a ++ b).drop (a.length - k) := by
    rw [List.drop_append_eq_append_drop,
      Nat.sub_eq_zero_of_le (Nat.sub_le a.length k), List.drop_zero]
  rw [h1, List.drop_drop]
  congr 1
  simp only [List.length_drop, List.length_append]
  omega

/-- Folding deque appends over a list is taking the last k elements of the
concatenated stream, provided the start window is within capacity. -/
theorem foldl_dequeAppend (k : Nat) (l : List Frame) :
    ∀ w : List Frame, w.length ≤ k →
      l.foldl (dequeAppend k) w = takeLast k (w ++ l) := by
  induction l with
  | nil =>
    intro w hw
    simp [takeLast, Nat.sub_eq_zero_of_le hw]
  | cons x t ih =>
    intro w hw
    rw [List.foldl_cons]
    have hlen : (dequeAppend k w x).length ≤ k := by
      simp only [dequeAppend, List.length_drop, List.length_append]
      omega
    rw [ih _ hlen]
    have h2 : dequeAppend k w x = takeLast k (w ++ [x]) := rfl
    rw [h2, takeLast_takeLast_append, List.append_assoc, List.singleton_append]

/-- Resetting a within-capacity window fills it with k copies of the reset
observation. -/
theorem frameStack_reset_fill (k : Nat) (w : List Frame) (ob : Frame)
    (hw : w.length ≤ k) : FrameStack.reset k w ob = List.replicate k ob := by
  unfold FrameStack.reset
  rw [foldl_dequeAppend k _ w hw]
  unfold takeLast
  have h1 : (w ++ List.replicate k ob).length - k = w.length := by
    simp only [List.length_append, List.length_replicate]
    omega
  rw [h1]
  have h2 : (w ++ List.replicate k ob).drop w.length = List.replicate k ob :=
    List.drop_left w _
  exact h2

/-- Dropping the reset padding: once at least k step observations arrived, the
last k elements of the padded stream are the last k step observations. -/
theorem takeLast_replicate_append (k : Nat) (ob0 : Frame) (obs : List Frame)
    (h : k ≤ obs.length) :
    takeLast k (List.replicate k ob0 ++ obs) = takeLast k obs := by
  unfold takeLast
  have hn : (List.replicate k ob0 ++ obs).length - k = k + (obs.length - k) := by
    simp only [List.length_append, List.length_replicate]
    omega
  rw [hn, ← List.drop_drop]
  have h2 : (List.replicate k ob0 ++ obs).drop k = obs := by
    rw [List.drop_append_eq_append_drop, List.drop_eq_nil_of_le (by simp),
      List.length_replicate, Nat.sub_self, List.drop_zero, List.nil_append]
  rw [h2]

/-- C7: after reset the window is exactly k copies of the reset observation;
the window keeps exactly k entries after any run and after any single step
from a full window; and once at least k step observations arrived, the
materialized observation is the plain concatenation of the last k per-step
observations in order from oldest to newest. -/
theorem frame_stack_window (k : Nat) (ob0 : Frame) (obs : List Frame) :
    FrameStack.reset k [] ob0 = List.replicate k ob0 ∧
    (windowAfter k ob0 obs).length = k ∧
    (∀ (w : List Frame) (x : Frame), w.length = k →
      (FrameStack.step k w x).length = k) ∧
    (k ≤ obs.length →
      FrameStack.getOb (windowAfter k ob0 obs) = (takeLast k obs).flatten) := by
  have hreset : FrameStack.reset k [] ob0 = List.replicate k ob0 :=
    frameStack_reset_fill k [] ob0 (by simp)
  have hwin : windowAfter k ob0 obs = takeLast k (List.replicate k ob0 ++ obs) := by
    unfold windowAfter
    rw [hreset, foldl_dequeAppend k obs _ (by simp)]
  refine ⟨hreset, ?_, ?_, ?_⟩
  · rw [hwin]
    unfold takeLast
    simp only [List.length_drop, List.length_append, List.length_replicate]
    omega
  · intro w x hw
    simp only [FrameStack.step, dequeAppend, List.length_drop, List.length_append]
    omega
  · intro h
    rw [hwin, takeLast_replicate_append k ob0 obs h]
    rfl

/-- Witness for C7 with k = 4 and six distinct marker frames. -/
theorem frame_stack_window_witness :
    4 ≤ ([[1], [2], [3], [4], [5], [6]] : List Frame).length ∧
    FrameStack.getOb (windowAfter 4 [0] [[1], [2], [3], [4], [5], [6]]) =
      (takeLast 4 [[1], [2], [3], [4], [5], [6]]).flatten :=
  ⟨by decide,
    (frame_stack_window 4 [0] [[1], [2], [3], [4], [5], [6]]).2.2.2 (by decide)⟩

/-- One inner tick during a MaxAndSkipEnv step: raw frame, reward, done. -/
structure SkipTick where
  obs : Frame
  reward : ℚ
  done : Bool

/-- The frame-buffer update of the MaxAndSkipEnv loop, lines 115 to 118 of the
source: slot 0 is overwritten at tick skip - 2 and slot 1 at tick skip - 1. -/
def bufUpdate (skip i : Nat) (buf : Frame × Frame) (obs : Frame) : Frame × Frame :=
  let buf1 := if i = skip - 2 then (obs, buf.2) else buf
  if i = skip - 1 then (buf1.1, obs) else buf1

namespace MaxAndSkipEnv

/-- The loop of MaxAndSkipEnv.step, lines 111 to 121 of the source, with rem
ticks remaining at index i: update the frame buffer, accumulate the reward,
record the done flag of the tick, and break on done. -/
def loop (skip : Nat) (ticks : Nat → SkipTick) :
    Nat → Nat → Frame × Frame → ℚ → Option Bool →
      (Frame × Frame) × ℚ × Option Bool
  | 0, _, buf, acc, d => (buf, acc, d)
  | rem + 1, i, buf, acc, d =>
    if (ticks i).done then
      (bufUpdate skip i buf (ticks i).obs, acc + (ticks i).reward, some true)
    else
      loop skip ticks rem (i + 1) (bufUpdate skip i buf (ticks i).obs)
        (acc + (ticks i).reward) (some false)

/-- MaxAndSkipEnv.step, lines 109 to 126 of the source: run the loop over the
skip ticks, then emit the elementwise max of the two buffer slots, the summed
reward, and the recorded done flag. -/
def step (skip : Nat) (ticks : Nat → SkipTick) (buf : Frame × Frame) :
    Frame × ℚ × Option Bool :=
  let r := loop skip ticks skip 0 buf 0 none
  (maxFrame r.1.1 r.1.2, r.2.1, r.2.2)

/-- Index one past the last tick the loop executes, with rem ticks remaining
at index i: the first done tick stops the loop early. -/
def numExec (ticks : Nat → SkipTick) : Nat → Nat → Nat
  | 0, i => i
  | rem + 1, i => if (ticks i).done then i + 1 else numExec ticks rem (i + 1)

end MaxAndSkipEnv

/-- The stopping index is never below the current index. -/
theorem numExec_ge (ticks : Nat → SkipTick) :
    ∀ rem i : Nat, i ≤ MaxAndSkipEnv.numExec ticks rem i := by
  intro rem
  induction rem with
  | zero => intro i; simp [MaxAndSkipEnv.numExec]
  | succ rem ih =>
    intro i
    rw [MaxAndSkipEnv.numExec]
    by_cases hd : (ticks i).done
    · simp [hd]
    · simp only [hd, Bool.false_eq_true, if_false]
      exact le_trans (Nat.le_succ i) (ih (i + 1))

/-- When no executed tick reports done, the loop runs all remaining ticks. -/
theorem numExec_all (ticks : Nat → SkipTick) :
    ∀ rem i : Nat, (∀ j, i ≤ j → j < i + rem → (ticks j).done = false) →
      MaxAndSkipEnv.numExec ticks rem i = i + rem := by
  intro rem
  induction rem with
  | zero => intro i _; simp [MaxAndSkipEnv.numExec]
  | succ rem ih =>
    intro i h
    rw [MaxAndSkipEnv.numExec]
    have hi : (ticks i).done = false := h i (le_refl i) (by omega)
    simp only [hi, Bool.false_eq_true, if_false]
    rw [ih (i + 1) (fun j hj1 hj2 => h j (by omega) (by omega))]
    omega

/-- The accumulated reward of the loop is the starting accumulator plus the
rewards of the executed ticks. -/
theorem loop_reward (skip : Nat) (ticks : Nat → SkipTick) :
    ∀ (rem i : Nat) (buf : Frame × Frame) (acc : ℚ) (d : Option Bool),
      (MaxAndSkipEnv.loop skip ticks rem i buf acc d).2.1 =
        acc + ∑ j ∈ Finset.Ico i (MaxAndSkipEnv.numExec ticks rem i),
          (ticks j).reward := by
  intro rem
  induction rem with
  | zero =>
    intro i buf acc d
    simp [MaxAndSkipEnv.loop, MaxAndSkipEnv.numExec]
  | succ rem ih =>
    intro i buf acc d
    rw [MaxAndSkipEnv.loop, MaxAndSkipEnv.numExec]
    by_cases hd : (ticks i).done
    · simp only [hd, if_true]
      have hset : Finset.Ico i (i + 1) = {i} := by
        ext x
        simp only [Finset.mem_Ico, Finset.mem_singleton]
        omega
      rw [hset, Finset.sum_singleton]
    · simp only [hd, Bool.false_eq_true, if_false]
      rw [ih (i + 1) _ _ _]
      have hlt : i < MaxAndSkipEnv.numExec ticks rem (i + 1) :=
        lt_of_lt_of_le (Nat.lt_succ_self i) (numExec_ge ticks rem (i + 1))
      rw [Finset.sum_eq_sum_Ico_succ_bot hlt]
      ring

/-- When no tick before tick skip - 1 reports done, the loop leaves the frames
of ticks skip - 2 and skip - 1 in the buffer. -/
theorem loop_frame (skip : Nat) (ticks : Nat → SkipTick) (h2 : 2 ≤ skip)
    (hnd : ∀ j, j < skip - 1 → (ticks j).done = false) :
    ∀ (rem i : Nat) (buf : Frame × Frame) (acc : ℚ) (d : Option Bool),
      i + rem = skip → i ≤ skip - 2 →
      (MaxAndSkipEnv.loop skip ticks rem i buf acc d).1 =
        ((ticks (skip - 2)).obs, (ticks (skip - 1)).obs) := by
  intro rem
  induction rem with
  | zero =>
    intro i buf acc d hsum hi
    omega
  | succ rem ih =>
    intro i buf acc d hsum hi
    rw [MaxAndSkipEnv.loop]
    have hdone : (ticks i).done = false := hnd i (by omega)
    simp only [hdone, Bool.false_eq_true, if_false]
    by_cases he : i = skip - 2
    · have hrem : rem = 1 := by omega
      subst hrem
      subst he
      rw [MaxAndSkipEnv.loop]
      have he1 : skip - 2 + 1 = skip - 1 := by omega
      have hne : ¬(skip - 2 = skip - 1) := by omega
      have hbuf : bufUpdate skip (skip - 2) buf (ticks (skip - 2)).obs =
          ((ticks (skip - 2)).obs, buf.2) := by
        simp [bufUpdate, hne]
      rw [he1]
      have hbuf2 : bufUpdate skip (skip - 1)
          ((ticks (skip - 2)).obs, buf.2) (ticks (skip - 1)).obs =
          ((ticks (skip - 2)).obs, (ticks (skip - 1)).obs) := by
        have hne2 : ¬(skip - 1 = skip - 2) := by omega
        simp [bufUpdate, hne2]
      rw [hbuf, hbuf2]
      by_cases hd1 : (ticks (skip - 1)).done
      · simp only [hd1, if_true]
      · simp only [hd1, Bool.false_eq_true, if_false]
        rw [MaxAndSkipEnv.loop]
    · have hlt : i < skip - 2 := by omega
      have hbuf : bufUpdate skip i buf (ticks i).obs = buf := by
        unfold bufUpdate
        simp only [if_neg (by omega : ¬(i = skip - 2)),
          if_neg (by omega : ¬(i = skip - 1))]
      rw [hbuf]
      exact ih (i + 1) buf _ _ (by omega) (by omega)

/-- C4: the reward of a MaxAndSkipEnv step is the sum of the per-tick rewards
of the ticks actually executed; when no tick reports done, all skip ticks are
executed; and when skip is at least 2 and no tick before tick skip - 1 reports
done, the emitted frame is the elementwise maximum of the raw frames of ticks
skip - 2 and skip - 1. -/
theorem max_and_skip_step (skip : Nat) (ticks : Nat → SkipTick)
    (buf : Frame × Frame) :
    (MaxAndSkipEnv.step skip ticks buf).2.1 =
      ∑ j ∈ Finset.range (MaxAndSkipEnv.numExec ticks skip 0),
        (ticks j).reward ∧
    ((∀ j, j < skip → (ticks j).done = false) →
      MaxAndSkipEnv.numExec ticks skip 0 = skip) ∧
    (2 ≤ skip → (∀ j, j < skip - 1 → (ticks j).done = false) →
      (MaxAndSkipEnv.step skip ticks buf).1 =
        maxFrame (ticks (skip - 2)).obs (ticks (skip - 1)).obs) := by
  refine ⟨?_, ?_, ?_⟩
  · show (MaxAndSkipEnv.loop skip ticks skip 0 buf 0 none).2.1 = _
    rw [loop_reward skip ticks skip 0 buf 0 none, Finset.range_eq_Ico, zero_add]
  · intro h
    rw [numExec_all ticks skip 0 (fun j _ hj2 => h j (by omega))]
    omega
  · intro h2 hnd
    show maxFrame (MaxAndSkipEnv.loop skip ticks skip 0 buf 0 none).1.1
        (MaxAndSkipEnv.loop skip ticks skip 0 buf 0 none).1.2 = _
    rw [loop_frame skip ticks h2 hnd skip 0 buf 0 none (by omega) (by omega)]

/-- Scripted ticks for the C4 witness: tick j yields frame [j], reward j, and
never reports done. -/
def skipWitnessTicks : Nat → SkipTick := fun j => ⟨[j], (j : ℚ), false⟩

/-- Witness for C4 at skip = 4 over the scripted ticks. -/
theorem max_and_skip_step_witness :
    (2 ≤ 4 ∧ (∀ j, j < 4 - 1 → (skipWitnessTicks j).done = false)) ∧
    (MaxAndSkipEnv.step 4 skipWitnessTicks ([9], [9])).1 =
      maxFrame (skipWitnessTicks (4 - 2)).obs (skipWitnessTicks (4 - 1)).obs :=
  ⟨⟨by norm_num, fun j _ => rfl⟩,
    (max_and_skip_step 4 skipWitnessTicks ([9], [9])).2.2 (by norm_num)
      (fun j _ => rfl)⟩
